import Mathlib

/-!
Shallow embedding of the ProjEvo/project-evolution core (creature model,
movement schedules, creature generation/mutation, and the evolution
controller) together with theorems checking the specification claims.

Conventions of the embedding:
* `f32` values are modelled as `ℚ` (exact arithmetic; the schedule and
  geometry computations of interest involve only field operations).
* `i32` values are modelled as `ℤ`; Rust `%` on `i32` is `Int.tmod`.
* `Duration` values are modelled as `ℕ` nanosecond counts.
* `Uuid` values are modelled as `ℕ`; `Uuid::new_v4()` (assumed collision
  free) is determinized as an explicit fresh-id counter threaded through
  the functions that create identities.
* `HashMap` contents are modelled as lists in iteration order; `rand`
  draws are supplied by explicit oracle arguments.
-/

namespace ProjEvo

/-- Number of fixed simulation steps per simulated second (`STEPS_PER_SECOND`). -/
def STEPS_PER_SECOND : ℤ := 60

/-- Nanoseconds of one fixed step: `Duration::from_nanos(1_000_000_000 / 60)`
(integer division, hence 16666666 ns), from `simulation.rs`. -/
def STEPS_FREQUENCY : ℕ := 1000000000 / 60

/-- Movement schedule of one muscle (`MovementParameters` in
`movement_parameters.rs`): cached natural length plus the nine phase
parameters, all in whole simulation steps. -/
structure MovementParameters where
  muscle_length : ℚ
  offset : ℤ
  extension_period : ℤ
  extension_sleep_period : ℤ
  extension_return_period : ℤ
  extension_return_sleep_period : ℤ
  contraction_period : ℤ
  contraction_sleep_period : ℤ
  contraction_return_period : ℤ
  contraction_return_sleep_period : ℤ
  deriving DecidableEq, Repr

/-- Inclusive sampling range of `offset` (`OFFSET_RANGE = 0..=STEPS_PER_SECOND * 12`). -/
def OFFSET_RANGE : ℤ × ℤ := (0, STEPS_PER_SECOND * 12)

/-- Inclusive sampling range of the four active periods
(`STEPS_PER_SECOND / 2..=STEPS_PER_SECOND * 4`). -/
def ACTIVE_PERIOD_RANGE : ℤ × ℤ := (STEPS_PER_SECOND / 2, STEPS_PER_SECOND * 4)

/-- Inclusive sampling range of the four sleep periods (`0..=STEPS_PER_SECOND * 8`). -/
def SLEEP_PERIOD_RANGE : ℤ × ℤ := (0, STEPS_PER_SECOND * 8)

/-- Predicate: every field of the schedule lies in the range it is sampled
from by `MovementParameters::generate_for_muscles_and_nodes`. -/
def MovementParameters.in_generation_ranges (p : MovementParameters) : Prop :=
  OFFSET_RANGE.1 ≤ p.offset ∧ p.offset ≤ OFFSET_RANGE.2 ∧
  ACTIVE_PERIOD_RANGE.1 ≤ p.extension_period ∧ p.extension_period ≤ ACTIVE_PERIOD_RANGE.2 ∧
  SLEEP_PERIOD_RANGE.1 ≤ p.extension_sleep_period ∧
    p.extension_sleep_period ≤ SLEEP_PERIOD_RANGE.2 ∧
  ACTIVE_PERIOD_RANGE.1 ≤ p.extension_return_period ∧
    p.extension_return_period ≤ ACTIVE_PERIOD_RANGE.2 ∧
  SLEEP_PERIOD_RANGE.1 ≤ p.extension_return_sleep_period ∧
    p.extension_return_sleep_period ≤ SLEEP_PERIOD_RANGE.2 ∧
  ACTIVE_PERIOD_RANGE.1 ≤ p.contraction_period ∧ p.contraction_period ≤ ACTIVE_PERIOD_RANGE.2 ∧
  SLEEP_PERIOD_RANGE.1 ≤ p.contraction_sleep_period ∧
    p.contraction_sleep_period ≤ SLEEP_PERIOD_RANGE.2 ∧
  ACTIVE_PERIOD_RANGE.1 ≤ p.contraction_return_period ∧
    p.contraction_return_period ≤ ACTIVE_PERIOD_RANGE.2 ∧
  SLEEP_PERIOD_RANGE.1 ≤ p.contraction_return_sleep_period ∧
    p.contraction_return_sleep_period ≤ SLEEP_PERIOD_RANGE.2

instance (p : MovementParameters) : Decidable p.in_generation_ranges := by
  unfold MovementParameters.in_generation_ranges
  infer_instance

/-- Sum of the eight phase durations (`total` in `get_extension_at`). -/
def MovementParameters.total (p : MovementParameters) : ℤ :=
  p.extension_period + p.extension_sleep_period + p.extension_return_period +
    p.extension_return_sleep_period + p.contraction_period + p.contraction_sleep_period +
    p.contraction_return_period + p.contraction_return_sleep_period

/-- Extension delta of the muscle at a step count, 0 = fully contracted,
1 = fully extended, 0.5 = rest (`MovementParameters::get_extension_at`).
Rust `%` on `i32` is truncated remainder, `Int.tmod`. -/
def MovementParameters.get_extension_at (p : MovementParameters) (step : ℤ) : ℚ :=
  if step < p.offset then 1/2
  else
    let d0 := (step - p.offset).tmod p.total
    if d0 < p.extension_period then
      1/2 + ((d0 : ℚ) / (p.extension_period : ℚ)) * (1/2)
    else
      let d1 := d0 - p.extension_period
      if d1 < p.extension_sleep_period then 1
      else
        let d2 := d1 - p.extension_sleep_period
        if d2 < p.extension_return_period then
          1 - ((d2 : ℚ) / (p.extension_return_period : ℚ)) * (1/2)
        else
          let d3 := d2 - p.extension_return_period
          if d3 < p.extension_return_sleep_period then 1/2
          else
            let d4 := d3 - p.extension_return_sleep_period
            if d4 < p.contraction_period then
              1/2 - ((d4 : ℚ) / (p.contraction_period : ℚ)) * (1/2)
            else
              let d5 := d4 - p.contraction_period
              if d5 < p.contraction_sleep_period then 0
              else
                let d6 := d5 - p.contraction_sleep_period
                if d6 < p.contraction_return_period then
                  ((d6 : ℚ) / (p.contraction_return_period : ℚ)) * (1/2)
                else 1/2

/-- Concrete schedule of the C1 scenario: `extension_period = 10`,
`contraction_period = 10`, offset and every other phase duration zero. -/
def scenarioC1 : MovementParameters :=
  { muscle_length := 10
    offset := 0
    extension_period := 10
    extension_sleep_period := 0
    extension_return_period := 0
    extension_return_sleep_period := 0
    contraction_period := 10
    contraction_sleep_period := 0
    contraction_return_period := 0
    contraction_return_sleep_period := 0 }

/-- Helper: a ratio of integers `0 ≤ d < e`, scaled by one half, lies in `[0, 1/2]`. -/
lemma half_frac_bound {d e : ℤ} (hd : 0 ≤ d) (hde : d < e) :
    0 ≤ (d : ℚ) / (e : ℚ) * (1/2) ∧ (d : ℚ) / (e : ℚ) * (1/2) ≤ 1/2 := by
  have he : (0 : ℚ) < (e : ℚ) := by exact_mod_cast lt_of_le_of_lt hd hde
  have hdq : (0 : ℚ) ≤ (d : ℚ) := by exact_mod_cast hd
  have h1 : (d : ℚ) / (e : ℚ) ≤ 1 := by
    rw [div_le_one he]
    exact_mod_cast le_of_lt hde
  constructor
  · positivity
  · nlinarith

/-- C1, counterexample: on the scenario schedule (`extension_period = 10`,
`contraction_period = 10`, everything else zero) `get_extension_at` does not
return 1.0 at step 10, 0.5 at step 15, or 0.0 at step 20 as the claim states. -/
theorem scenarioC1_counterexample :
    scenarioC1.get_extension_at 10 ≠ 1 ∧
    scenarioC1.get_extension_at 15 ≠ 1/2 ∧
    scenarioC1.get_extension_at 20 ≠ 0 := by
  refine ⟨?_, ?_, ?_⟩ <;>
    norm_num [MovementParameters.get_extension_at, scenarioC1, MovementParameters.total,
      Int.tmod]

/-- C1, amended: on the scenario schedule `get_extension_at` returns 0.5 at
step 0, 0.75 at step 5, 0.5 at step 10 (the contraction phase starts at rest
level, a sleep phase of length zero is skipped), 0.25 at step 15, and 0.5 at
step 20 (the wrap restarts the rising extension phase at rest level). -/
theorem scenarioC1_values :
    scenarioC1.get_extension_at 0 = 1/2 ∧
    scenarioC1.get_extension_at 5 = 3/4 ∧
    scenarioC1.get_extension_at 10 = 1/2 ∧
    scenarioC1.get_extension_at 15 = 1/4 ∧
    scenarioC1.get_extension_at 20 = 1/2 := by
  refine ⟨?_, ?_, ?_, ?_, ?_⟩ <;>
    norm_num [MovementParameters.get_extension_at, scenarioC1, MovementParameters.total,
      Int.tmod]

/-- C7: for every schedule whose parameters lie in the random-generation
ranges, `get_extension_at` stays in `[0, 1]` at every step `t ≥ 0`, and is
exactly 0.5 at step 0. -/
theorem get_extension_at_bounds (p : MovementParameters)
    (hp : p.in_generation_ranges) (t : ℤ) (ht : 0 ≤ t) :
    (0 ≤ p.get_extension_at t ∧ p.get_extension_at t ≤ 1) ∧
    p.get_extension_at 0 = 1/2 := by
  simp only [MovementParameters.in_generation_ranges, OFFSET_RANGE, ACTIVE_PERIOD_RANGE,
    SLEEP_PERIOD_RANGE, STEPS_PER_SECOND] at hp
  obtain ⟨ho1, ho2, he1, he2, hes1, hes2, her1, her2, hers1, hers2, hc1, hc2, hcs1, hcs2,
    hcr1, hcr2, hcrs1, hcrs2⟩ := hp
  have htot : 0 < p.total := by
    unfold MovementParameters.total
    omega
  constructor
  · by_cases h0 : t < p.offset
    · simp only [MovementParameters.get_extension_at, if_pos h0]
      norm_num
    · have hd0 : 0 ≤ (t - p.offset).tmod p.total := Int.tmod_nonneg _ (by omega)
      have hd0t : (t - p.offset).tmod p.total < p.total := Int.tmod_lt_of_pos _ htot
      simp only [MovementParameters.get_extension_at, if_neg h0]
      split_ifs with hb1 hb2 hb3 hb4 hb5 hb6 hb7
      · have := half_frac_bound hd0 hb1
        constructor <;> linarith [this.1, this.2]
      · norm_num
      · have hnn : 0 ≤ (t - p.offset).tmod p.total - p.extension_period -
            p.extension_sleep_period := by omega
        have := half_frac_bound hnn hb3
        constructor <;> linarith [this.1, this.2]
      · norm_num
      · have hnn : 0 ≤ (t - p.offset).tmod p.total - p.extension_period -
            p.extension_sleep_period - p.extension_return_period -
            p.extension_return_sleep_period := by omega
        have := half_frac_bound hnn hb5
        constructor <;> linarith [this.1, this.2]
      · norm_num
      · have hnn : 0 ≤ (t - p.offset).tmod p.total - p.extension_period -
            p.extension_sleep_period - p.extension_return_period -
            p.extension_return_sleep_period - p.contraction_period -
            p.contraction_sleep_period := by omega
        have := half_frac_bound hnn hb7
        constructor <;> linarith [this.1, this.2]
      · norm_num
  · by_cases h0 : (0 : ℤ) < p.offset
    · simp only [MovementParameters.get_extension_at, if_pos h0]
    · have hoff : p.offset = 0 := by omega
      have hext : (0 : ℤ) < p.extension_period := by omega
      simp only [MovementParameters.get_extension_at, if_neg h0, hoff, sub_zero,
        Int.zero_tmod]
      norm_num [hext]

/-- Concrete all-minimum schedule used to witness C7. -/
def boundsExample : MovementParameters :=
  { muscle_length := 5
    offset := 0
    extension_period := 30
    extension_sleep_period := 0
    extension_return_period := 30
    extension_return_sleep_period := 0
    contraction_period := 30
    contraction_sleep_period := 0
    contraction_return_period := 30
    contraction_return_sleep_period := 0 }

/-- C7, witness: the bounds theorem applied to a concrete in-range schedule at step 7. -/
theorem get_extension_at_bounds_witness :
    boundsExample.in_generation_ranges ∧ (0 : ℤ) ≤ 7 ∧
    ((0 ≤ boundsExample.get_extension_at 7 ∧ boundsExample.get_extension_at 7 ≤ 1) ∧
      boundsExample.get_extension_at 0 = 1/2) :=
  ⟨by decide, by norm_num, get_extension_at_bounds boundsExample (by decide) 7 (by norm_num)⟩

/-- Concrete schedule with the maximal offset 720, used to witness C10. -/
def offsetExample : MovementParameters :=
  { muscle_length := 5
    offset := 720
    extension_period := 30
    extension_sleep_period := 0
    extension_return_period := 30
    extension_return_sleep_period := 0
    contraction_period := 30
    contraction_sleep_period := 0
    contraction_return_period := 30
    contraction_return_sleep_period := 0 }

/-- C10: before the offset has elapsed the muscle holds rest length, and the
offset is sampled from `0..=STEPS_PER_SECOND * 12`, i.e. up to 12 simulated
seconds of initial rest. -/
theorem get_extension_at_before_offset (p : MovementParameters) (t : ℤ)
    (h0 : 0 ≤ t) (ht : t < p.offset) :
    p.get_extension_at t = 1/2 ∧ OFFSET_RANGE = (0, 12 * STEPS_PER_SECOND) := by
  refine ⟨?_, by decide⟩
  simp only [MovementParameters.get_extension_at, if_pos ht]

/-- C10, witness: the before-offset theorem applied to the concrete
offset-720 schedule at step 5. -/
theorem get_extension_at_before_offset_witness :
    (0 : ℤ) ≤ 5 ∧ (5 : ℤ) < offsetExample.offset ∧
    (offsetExample.get_extension_at 5 = 1/2 ∧
      OFFSET_RANGE = (0, 12 * STEPS_PER_SECOND)) :=
  ⟨by norm_num, by decide, get_extension_at_before_offset offsetExample 5 (by norm_num)
    (by decide)⟩

/-! Muscle generation of `CreatureBuilder::random` (creature.rs). The nested
loop over node pairs is modelled over the node ids in iteration order, with
the RNG connection draws supplied by a boolean oracle (`true` means the draw
`rng.gen::<f32>() < RANDOM_CHANGE_TO_CONNECT_NODES` succeeded) indexed by the
number of draws consumed so far. -/

/-- State of the muscle-generation loop of `CreatureBuilder::random`: the
`tested` map (modelled as the list of inserted keys), the muscles pushed so
far (as ordered endpoint pairs), and the number of RNG draws consumed. -/
structure GenMusclesState where
  tested : List (ℕ × ℕ)
  muscles : List (ℕ × ℕ)
  draws_used : ℕ
  deriving DecidableEq, Repr

/-- Body of the inner loop of `CreatureBuilder::random` for the ordered node
pair `(f, t)`: skip when `f = t` or the reversed pair is a key of `tested`;
otherwise consume one draw, and on success insert `(f, t)` into `tested` and
push the muscle. -/
def connect_step (draws : ℕ → Bool) (s : GenMusclesState) (f t : ℕ) : GenMusclesState :=
  if f = t ∨ (t, f) ∈ s.tested then s
  else if draws s.draws_used then
    { tested := (f, t) :: s.tested
      muscles := s.muscles ++ [(f, t)]
      draws_used := s.draws_used + 1 }
  else { s with draws_used := s.draws_used + 1 }

/-- Muscle-generation loop of `CreatureBuilder::random`: the nested
`for from in nodes { for to in nodes { ... } }` loop over node ids. -/
def generate_random_muscles (draws : ℕ → Bool) (nodes : List ℕ) : GenMusclesState :=
  nodes.foldl (fun s f => nodes.foldl (fun s t => connect_step draws s f t) s)
    ⟨[], [], 0⟩

/-- C4, counterexample: with two distinct nodes whose first draw fails and
second draw succeeds, the loop consumes two draws for the single unordered
pair (not exactly one) and still connects it, in the reversed orientation. -/
theorem generate_random_muscles_counterexample :
    (generate_random_muscles (fun i => i == 1) [0, 1]).draws_used = 2 ∧
    (generate_random_muscles (fun i => i == 1) [0, 1]).draws_used ≠ 1 ∧
    (generate_random_muscles (fun i => i == 1) [0, 1]).muscles = [(1, 0)] := by
  decide

/-- C4, amended: for an unordered pair of distinct nodes, the `tested` key
suppresses the reversed orientation only when the first draw succeeded: on a
successful first draw the pair consumes one draw and is connected as
`(a, b)`; on a failed first draw the reversed orientation consumes a second
draw, connecting `(b, a)` exactly when that second draw succeeds (so with
draw success probability p the pair is connected with probability
1 - (1-p)^2, not p). -/
theorem generate_random_muscles_two_nodes (a b : ℕ) (draws : ℕ → Bool)
    (hab : a ≠ b) :
    generate_random_muscles draws [a, b] =
      if draws 0 then ⟨[(a, b)], [(a, b)], 1⟩
      else if draws 1 then ⟨[(b, a)], [(b, a)], 2⟩
      else ⟨[], [], 2⟩ := by
  have hba : b ≠ a := fun h => hab h.symm
  cases h0 : draws 0 <;> cases h1 : draws 1 <;>
    simp [generate_random_muscles, connect_step, hab, hba, h0, h1, Prod.ext_iff]

/-- C4, witness: the two-node characterization applied to nodes 0 and 1 with
an always-succeeding draw oracle. -/
theorem generate_random_muscles_two_nodes_witness :
    (0 : ℕ) ≠ 1 ∧
    generate_random_muscles (fun _ => true) [0, 1] =
      if (fun (_ : ℕ) => true) 0 then ⟨[(0, 1)], [(0, 1)], 1⟩
      else if (fun (_ : ℕ) => true) 1 then ⟨[(1, 0)], [(1, 0)], 2⟩
      else ⟨[], [], 2⟩ :=
  ⟨by decide, generate_random_muscles_two_nodes 0 1 (fun _ => true) (by decide)⟩

/-! Evolution controller (`evolver.rs`). The controller state machine is
modelled with each `Simulation` of the current generation abstracted to the
number of `Simulation::step` calls it has received; regeneration at the end
of the `Evolving` phase is an oracle argument. -/

/-- Population size per generation (`SIMULATIONS_PER_GENERATION`). -/
def SIMULATIONS_PER_GENERATION : ℤ := 100

/-- Steps of the simulating phase (`STEPS_PER_GENERATION = STEPS_PER_SECOND * 15`). -/
def STEPS_PER_GENERATION : ℤ := STEPS_PER_SECOND * 15

/-- Steps of the evolving phase (`STEPS_PER_EVOLUTION = STEPS_PER_SECOND * 5`). -/
def STEPS_PER_EVOLUTION : ℤ := STEPS_PER_SECOND * 5

/-- Offspring produced per surviving creature (`OFFSPRING_PER_CREATURE`). -/
def OFFSPRING_PER_CREATURE : ℕ := 2

/-- State of the evolution controller (`EvolverState` in evolver.rs). -/
inductive EvolverState where
  | simulatingGeneration (steps_left : ℤ)
  | evolving (steps_left : ℤ)
  deriving DecidableEq, Repr

/-- Controller state together with the current generation, each simulation
abstracted to its count of received `step` calls. -/
structure EvolverMachine where
  state : EvolverState
  generation : List ℕ
  deriving DecidableEq, Repr

/-- One `Evolver::step`: decrement the phase counter; on reaching zero or
below, switch phase (regenerating the population when leaving `Evolving`)
and return without stepping the simulations; otherwise, in the simulating
phase, step every simulation of the current generation once. -/
def evolver_step (regen : List ℕ → List ℕ) (e : EvolverMachine) : EvolverMachine :=
  match e.state with
  | .simulatingGeneration steps_left =>
      let n := steps_left - 1
      if n ≤ 0 then { e with state := .evolving STEPS_PER_EVOLUTION }
      else { state := .simulatingGeneration n, generation := e.generation.map (· + 1) }
  | .evolving steps_left =>
      let n := steps_left - 1
      if n ≤ 0 then
        { state := .simulatingGeneration STEPS_PER_GENERATION,
          generation := regen e.generation }
      else { e with state := .evolving n }

/-- C2, counterexample: starting the simulating phase with `steps_left = 2`,
after the two controller steps that complete the phase the single simulation
has received 1 step call, not 2: the call that performs the transition
returns before stepping the generation. -/
theorem evolver_step_counterexample :
    (evolver_step id)^[2] ⟨.simulatingGeneration 2, [0]⟩ =
      ⟨.evolving STEPS_PER_EVOLUTION, [1]⟩ ∧
    ([1] : List ℕ) ≠ [2] := by
  constructor
  · decide
  · decide

/-- Helper: the first `k < N` controller steps of a simulating phase that
starts with `steps_left = N` leave the phase running with counter `N - k`
and have stepped every simulation `k` times. -/
lemma evolver_step_iterate (regen : List ℕ → List ℕ) (g : List ℕ) :
    ∀ (k N : ℕ), k < N →
      (evolver_step regen)^[k] ⟨.simulatingGeneration (N : ℤ), g⟩ =
        ⟨.simulatingGeneration ((N : ℤ) - k), g.map (· + k)⟩ := by
  intro k
  induction k with
  | zero =>
      intro N _
      simp
  | succ k ih =>
      intro N hk
      rw [Function.iterate_succ_apply', ih N (by omega)]
      have hpos : ¬((N : ℤ) - k - 1 ≤ 0) := by
        have : (k : ℤ) + 1 < N := by exact_mod_cast hk
        omega
      simp only [evolver_step, if_neg hpos]
      simp only [EvolverMachine.mk.injEq, EvolverState.simulatingGeneration.injEq]
      refine ⟨by push_cast; ring, ?_⟩
      rw [List.map_map]
      refine List.map_congr_left ?_
      intro x _
      simp only [Function.comp_apply]
      omega

/-- C2, amended: while the controller is in `SimulatingGeneration` with
`steps_left = N ≥ 1`, every simulation of the current generation receives
exactly `N - 1` step calls before the state transitions to `Evolving`: the
first `N - 1` controller steps each step the whole generation once and leave
the counter positive, and the `N`-th controller step, on which the counter
reaches zero, transitions without stepping the generation. -/
theorem evolver_simulating_phase (regen : List ℕ → List ℕ) (g : List ℕ)
    (N : ℕ) (hN : 1 ≤ N) :
    (∀ k : ℕ, k ≤ N - 1 →
      (evolver_step regen)^[k] ⟨.simulatingGeneration (N : ℤ), g⟩ =
        ⟨.simulatingGeneration ((N : ℤ) - k), g.map (· + k)⟩) ∧
    (evolver_step regen)^[N] ⟨.simulatingGeneration (N : ℤ), g⟩ =
      ⟨.evolving STEPS_PER_EVOLUTION, g.map (· + (N - 1))⟩ := by
  constructor
  · intro k hk
    exact evolver_step_iterate regen g k N (by omega)
  · obtain ⟨m, rfl⟩ : ∃ m, N = m + 1 := ⟨N - 1, by omega⟩
    rw [Function.iterate_succ_apply',
      evolver_step_iterate regen g m (m + 1) (by omega)]
    have hz : (((m + 1 : ℕ) : ℤ) - (m : ℕ) - 1 ≤ 0) := by
      push_cast
      omega
    simp only [evolver_step, if_pos hz]
    simp

/-- C2, witness: the simulating-phase theorem applied to a concrete
generation of one simulation and `N = 3`. -/
theorem evolver_simulating_phase_witness :
    1 ≤ 3 ∧
    ((∀ k : ℕ, k ≤ 3 - 1 →
      (evolver_step id)^[k] ⟨.simulatingGeneration ((3 : ℕ) : ℤ), [5]⟩ =
        ⟨.simulatingGeneration (((3 : ℕ) : ℤ) - k), [5].map (· + k)⟩) ∧
    (evolver_step id)^[3] ⟨.simulatingGeneration ((3 : ℕ) : ℤ), [5]⟩ =
      ⟨.evolving STEPS_PER_EVOLUTION, [5].map (· + (3 - 1))⟩) :=
  ⟨by decide, evolver_simulating_phase id [5] 3 (by decide)⟩


/-- Positivity of the fixed step duration, needed for termination of the
`run` loop. -/
lemma steps_frequency_pos : 0 < STEPS_FREQUENCY := by decide

/-- Loop of `Evolver::run`:
`while time > STEPS_FREQUENCY { time -= STEPS_FREQUENCY; self.step(); }`,
over an arbitrary state type stepped by `st`. The tick duration is a
parameter `freq` with its positivity (the termination argument); the
controller instantiates it with `STEPS_FREQUENCY`. Returns the number of
loop iterations (step calls), the remaining time, and the final state. -/
def run_loop {σ : Type} (freq : ℕ) (hf : 0 < freq) (st : σ → σ)
    (time : ℕ) (s : σ) : ℕ × ℕ × σ :=
  if freq < time then
    let r := run_loop freq hf st (time - freq) (st s)
    (r.1 + 1, r.2.1, r.2.2)
  else (0, time, s)
  termination_by time
  decreasing_by omega

/-- Unfolding of `run_loop` when more than one tick of time remains. -/
lemma run_loop_of_gt {σ : Type} (freq : ℕ) (hf : 0 < freq) (st : σ → σ)
    {time : ℕ} (h : freq < time) (s : σ) :
    run_loop freq hf st time s =
      ((run_loop freq hf st (time - freq) (st s)).1 + 1,
        (run_loop freq hf st (time - freq) (st s)).2) := by
  rw [run_loop.eq_def]
  simp only [if_pos h]

/-- Unfolding of `run_loop` when at most one tick of time remains. -/
lemma run_loop_of_le {σ : Type} (freq : ℕ) (hf : 0 < freq) (st : σ → σ)
    {time : ℕ} (h : ¬ freq < time) (s : σ) :
    run_loop freq hf st time s = (0, time, s) := by
  rw [run_loop.eq_def]
  simp only [if_neg h]

/-- Controller machine together with the carried `time_left_over` remainder
(nanoseconds). -/
structure EvolverT where
  machine : EvolverMachine
  time_left_over : ℕ
  deriving DecidableEq, Repr

/-- One `Evolver::run(time)` call: add the carried remainder, consume whole
fixed-duration ticks while more than one tick of time remains, and store the
leftover. -/
def evolver_run (regen : List ℕ → List ℕ) (time : ℕ) (e : EvolverT) : EvolverT :=
  let r := run_loop STEPS_FREQUENCY steps_frequency_pos (evolver_step regen)
    (time + e.time_left_over) e.machine
  { machine := r.2.2, time_left_over := r.2.1 }

/-- Number of state-machine steps performed by one `Evolver::run(time)` call. -/
def evolver_run_ticks (regen : List ℕ → List ℕ) (time : ℕ) (e : EvolverT) : ℕ :=
  (run_loop STEPS_FREQUENCY steps_frequency_pos (evolver_step regen)
    (time + e.time_left_over) e.machine).1

/-- Total number of state-machine steps performed by a sequence of
`Evolver::run` calls with the given durations. -/
def evolver_run_seq_ticks (regen : List ℕ → List ℕ) : List ℕ → EvolverT → ℕ
  | [], _ => 0
  | d :: ds, e =>
      evolver_run_ticks regen d e + evolver_run_seq_ticks regen ds (evolver_run regen d e)

/-- Helper: resuming the loop from its remainder and final state with `d`
more time behaves like a single loop run on `d + t`, in both iteration count
and final remainder and state. -/
lemma run_loop_add {σ : Type} (freq : ℕ) (hf : 0 < freq) (st : σ → σ) :
    ∀ (t : ℕ) (s : σ) (d : ℕ),
      (run_loop freq hf st (d + t) s).1 =
        (run_loop freq hf st t s).1 +
          (run_loop freq hf st (d + (run_loop freq hf st t s).2.1)
            (run_loop freq hf st t s).2.2).1 ∧
      (run_loop freq hf st (d + t) s).2 =
        (run_loop freq hf st (d + (run_loop freq hf st t s).2.1)
          (run_loop freq hf st t s).2.2).2 := by
  intro t
  induction t using Nat.strong_induction_on with
  | _ t ih =>
    intro s d
    by_cases h : freq < t
    · have ht : t - freq < t := by omega
      have hdt : freq < d + t := by omega
      have hsub : d + t - freq = d + (t - freq) := by omega
      obtain ⟨ih1, ih2⟩ := ih (t - freq) ht (st s) d
      rw [run_loop_of_gt freq hf st h, run_loop_of_gt freq hf st hdt, hsub]
      dsimp only
      exact ⟨by omega, ih2⟩
    · rw [run_loop_of_le freq hf st h]
      simp

/-- Helper: two consecutive `run` calls compose into one call on the summed
duration, matching the final state and remainder and the total tick count. -/
lemma evolver_run_run (regen : List ℕ → List ℕ) (d1 d2 : ℕ) (e : EvolverT) :
    evolver_run regen d2 (evolver_run regen d1 e) = evolver_run regen (d1 + d2) e ∧
    evolver_run_ticks regen d1 e + evolver_run_ticks regen d2 (evolver_run regen d1 e) =
      evolver_run_ticks regen (d1 + d2) e := by
  have key := run_loop_add STEPS_FREQUENCY steps_frequency_pos (evolver_step regen)
    (d1 + e.time_left_over) e.machine d2
  have harr : d2 + (d1 + e.time_left_over) = d1 + d2 + e.time_left_over := by omega
  rw [harr] at key
  obtain ⟨k1, k2⟩ := key
  constructor
  · simp only [evolver_run]
    rw [k2]
  · simp only [evolver_run, evolver_run_ticks]
    omega

/-- C3: a non-empty sequence of `run` calls with durations `d :: ds` leaves
the controller in the same state with the same `time_left_over` remainder as
the single call `run (d + sum ds)`, and performs the same total number of
state-machine steps: the tick count depends only on the total elapsed time. -/
theorem evolver_run_chunked (regen : List ℕ → List ℕ) (e : EvolverT)
    (d : ℕ) (ds : List ℕ) :
    (d :: ds).foldl (fun a x => evolver_run regen x a) e =
      evolver_run regen (d + ds.sum) e ∧
    evolver_run_seq_ticks regen (d :: ds) e =
      evolver_run_ticks regen (d + ds.sum) e := by
  induction ds generalizing d e with
  | nil =>
      simp [evolver_run_seq_ticks]
  | cons d2 rest ih =>
      obtain ⟨ih1, ih2⟩ := ih (evolver_run regen d e) d2
      obtain ⟨hr, ht⟩ := evolver_run_run regen d (d2 + rest.sum) e
      constructor
      · show (d2 :: rest).foldl (fun a x => evolver_run regen x a) (evolver_run regen d e) = _
        rw [ih1, List.sum_cons, ← Nat.add_assoc]
        rw [show d + d2 + rest.sum = d + (d2 + rest.sum) from by omega, ← hr]
      · show evolver_run_ticks regen d e +
          evolver_run_seq_ticks regen (d2 :: rest) (evolver_run regen d e) = _
        rw [ih2, List.sum_cons, ← Nat.add_assoc]
        rw [show d + d2 + rest.sum = d + (d2 + rest.sum) from by omega, ← ht]

/-! Creature colors (`creature_colors.rs`) and the HSV conversion of
`util.rs`. The `f32` arithmetic is modelled over `ℚ`; the Rust `as u8` cast
on a float truncates toward zero and saturates to `[0, 255]`. -/

/-- Maximal channel value (`MAX_RGB`). -/
def MAX_RGB : ℕ := 255

/-- Rust `as u8` cast of an `f32` value: truncate toward zero, saturating
into `[0, 255]`. -/
def f32_as_u8 (q : ℚ) : ℕ := min (⌊max 0 q⌋).toNat MAX_RGB

/-- HSV to RGB conversion (`util::hsv_to_rgb`), `h ∈ [0, 360]`,
`s, v ∈ [0, 100]`, channels in `[0, 255]`. -/
def hsv_to_rgb (h s v : ℕ) : ℕ × ℕ × ℕ :=
  let delta_s : ℚ := (s : ℚ) / 100
  let delta_v : ℚ := (v : ℚ) / 100
  let i : ℕ := (h % 360) / 60
  let dh : ℚ := ((h % 360 : ℕ) : ℚ) / 60 - (i : ℚ)
  let rv : ℕ := f32_as_u8 (delta_v * (MAX_RGB : ℚ))
  if s = 0 then (rv, rv, rv)
  else
    let p := f32_as_u8 (delta_v * (1 - delta_s) * 255)
    let q := f32_as_u8 (delta_v * (1 - delta_s * dh) * 255)
    let t := f32_as_u8 (delta_v * (1 - delta_s * (1 - dh)) * 255)
    match i with
    | 0 => (rv, t, p)
    | 1 => (q, rv, p)
    | 2 => (p, rv, t)
    | 3 => (p, q, rv)
    | 4 => (t, p, rv)
    | _ => (rv, p, q)

/-- Colors of a creature (`CreatureColors`): the generating hue and the four
derived RGB colors. -/
structure CreatureColors where
  hue : ℕ
  node : ℕ × ℕ × ℕ
  muscle_extended : ℕ × ℕ × ℕ
  muscle_contracted : ℕ × ℕ × ℕ
  score_text : ℕ × ℕ × ℕ
  deriving DecidableEq, Repr

/-- Derivation of all four colors from a hue (`CreatureColors::from_hue`). -/
def CreatureColors.from_hue (hue : ℕ) : CreatureColors :=
  { hue := hue
    node := hsv_to_rgb hue 75 100
    muscle_extended := hsv_to_rgb hue 75 75
    muscle_contracted := hsv_to_rgb hue 75 50
    score_text := hsv_to_rgb hue 75 95 }

/-- Hue produced by `CreatureColors::mutate`: the `i16` sum
`hue + delta` is cast with `as u16` (which wraps modulo 2^16, adding 65536
to a negative sum) and then reduced `% 360`. -/
def mutated_hue (hue : ℕ) (delta : ℤ) : ℕ :=
  (((hue : ℤ) + delta).emod 65536).toNat % 360

/-- Mutation of a color set (`CreatureColors::mutate`): perturb the hue by
the RNG delta (supplied as the oracle argument `delta`, drawn from
`MUTATE_COLOR_HUE_RANGE = -10..=10`) and re-derive all colors via
`from_hue`. -/
def CreatureColors.mutate (colors : CreatureColors) (delta : ℤ) : CreatureColors :=
  CreatureColors.from_hue (mutated_hue colors.hue delta)

/-- C9, counterexample: mutating hue 0 with delta −1 yields hue 15 (the
`as u16` cast wraps modulo 65536 = 360·182 + 16 before the `% 360`), and 15
is not congruent to 0 + d modulo 360 for any d in [−10, 10]. -/
theorem creature_colors_mutate_counterexample :
    (CreatureColors.mutate (CreatureColors.from_hue 0) (-1)).hue = 15 ∧
    ¬ ∃ d ∈ Finset.Icc (-10 : ℤ) 10,
      (((CreatureColors.mutate (CreatureColors.from_hue 0) (-1)).hue : ℤ) - (0 + d)) % 360
        = 0 := by
  constructor
  · rfl
  · decide

/-- C9, amended: `mutate` re-derives all four colors from the mutated hue by
the same `from_hue` derivation used at creation, and the mutated hue equals
`((hue + delta) mod 2^16) mod 360`, which for a non-negative sum is
congruent to `hue + delta` modulo 360, but for a negative sum is congruent
to `hue + delta + 16` modulo 360 (65536 ≡ 16 (mod 360)), not to
`hue + delta`. -/
theorem creature_colors_mutate_spec (c : CreatureColors) (d : ℤ)
    (hc : c.hue < 360) (hd1 : -10 ≤ d) (hd2 : d ≤ 10) :
    CreatureColors.mutate c d = CreatureColors.from_hue (mutated_hue c.hue d) ∧
    mutated_hue c.hue d < 360 ∧
    (0 ≤ (c.hue : ℤ) + d →
      ((mutated_hue c.hue d : ℤ)) % 360 = ((c.hue : ℤ) + d) % 360) ∧
    ((c.hue : ℤ) + d < 0 →
      ((mutated_hue c.hue d : ℤ)) % 360 = ((c.hue : ℤ) + d + 16) % 360) := by
  refine ⟨rfl, ?_, ?_, ?_⟩
  · unfold mutated_hue
    omega
  · intro h0
    unfold mutated_hue
    rw [show ((c.hue : ℤ) + d).emod 65536 = ((c.hue : ℤ) + d) % 65536 from rfl]
    omega
  · intro h0
    unfold mutated_hue
    rw [show ((c.hue : ℤ) + d).emod 65536 = ((c.hue : ℤ) + d) % 65536 from rfl]
    omega

/-- C9, witness: the amended theorem applied to the colors derived from hue
100 and delta 7. -/
theorem creature_colors_mutate_spec_witness :
    (CreatureColors.from_hue 100).hue < 360 ∧ (-10 : ℤ) ≤ 7 ∧ (7 : ℤ) ≤ 10 ∧
    (CreatureColors.mutate (CreatureColors.from_hue 100) 7 =
        CreatureColors.from_hue (mutated_hue (CreatureColors.from_hue 100).hue 7) ∧
      mutated_hue (CreatureColors.from_hue 100).hue 7 < 360 ∧
      (0 ≤ ((CreatureColors.from_hue 100).hue : ℤ) + 7 →
        ((mutated_hue (CreatureColors.from_hue 100).hue 7 : ℤ)) % 360 =
          (((CreatureColors.from_hue 100).hue : ℤ) + 7) % 360) ∧
      (((CreatureColors.from_hue 100).hue : ℤ) + 7 < 0 →
        ((mutated_hue (CreatureColors.from_hue 100).hue 7 : ℤ)) % 360 =
          (((CreatureColors.from_hue 100).hue : ℤ) + 7 + 16) % 360)) :=
  ⟨by norm_num [CreatureColors.from_hue], by norm_num, by norm_num,
    creature_colors_mutate_spec (CreatureColors.from_hue 100) 7
      (by norm_num [CreatureColors.from_hue]) (by norm_num) (by norm_num)⟩

/-! Creature data model (`creature.rs`, `node.rs`, `muscle.rs`,
`position.rs`). Identities are naturals produced by an explicit fresh-id
counter standing for `Uuid::new_v4()`; the `HashMap` keyed by those
identities is modelled as the list of entries in iteration order (the keys
produced by the counter are pairwise distinct, so insertion never
overwrites). -/

/-- A position in the 2D plane (`Position`). -/
structure Position where
  x : ℚ
  y : ℚ
  deriving DecidableEq, Repr

/-- A node: unique id, position and size (`Node`). -/
structure Node where
  id : ℕ
  position : Position
  size : ℚ
  deriving DecidableEq, Repr

/-- A muscle: unique id and the ids of the two nodes it connects (`Muscle`). -/
structure Muscle where
  id : ℕ
  from_id : ℕ
  to_id : ℕ
  deriving DecidableEq, Repr

/-- `Node::new`: fresh id from the counter, given position and size. -/
def Node.new (c : ℕ) (position : Position) (size : ℚ) : Node × ℕ :=
  (⟨c, position, size⟩, c + 1)

/-- `Muscle::new`: fresh id from the counter, given endpoint node ids. -/
def Muscle.new (c : ℕ) (from_id to_id : ℕ) : Muscle × ℕ :=
  (⟨c, from_id, to_id⟩, c + 1)

/-- A creature (`Creature`): id, nodes, muscles, one movement schedule per
muscle id, and colors. -/
structure Creature where
  id : ℕ
  nodes : List Node
  muscles : List Muscle
  movement_parameters : List (ℕ × MovementParameters)
  colors : CreatureColors
  deriving DecidableEq, Repr

/-- A creature builder (`CreatureBuilder`): accumulated nodes and muscles,
with schedules and colors optional until finalized. -/
structure CreatureBuilder where
  id : ℕ
  nodes : List Node
  muscles : List Muscle
  movement_parameters : Option (List (ℕ × MovementParameters))
  colors : Option CreatureColors
  deriving DecidableEq, Repr

/-- Fallback schedule for the modelled panicking map index
`creature.movement_parameters()[old_id]`; never reached on well-formed
creatures. -/
def default_movement_parameters : MovementParameters :=
  ⟨0, 0, 0, 0, 0, 0, 0, 0, 0, 0⟩

/-- Lookup in the old-id-to-new-id map of `CreatureBuilder::mutate`
(`old_uuid_to_new_uuid[&id]`, which panics when the key is absent; the
well-formedness hypotheses of the theorems ensure presence). -/
def lookup_new (m : List (ℕ × ℕ)) (old : ℕ) : ℕ :=
  (m.lookup old).getD 0

/-- Node-duplication loop of `CreatureBuilder::mutate`: copy every node with
a fresh id, preserving position and size, and record the old-to-new id
mapping. Returns the new nodes, the mapping, and the next counter value. -/
def mutate_nodes : List Node → ℕ → List Node × List (ℕ × ℕ) × ℕ
  | [], c => ([], [], c)
  | n :: ns, c =>
      let r := mutate_nodes ns (c + 1)
      (⟨c, n.position, n.size⟩ :: r.1, (n.id, c) :: r.2.1, r.2.2)

/-- Muscle-duplication loop of `CreatureBuilder::mutate`: copy every muscle
with a fresh id, endpoints mapped through the old-to-new id mapping, and
build the new schedule table by perturbing the parent schedule of each old
muscle with the schedule-mutation oracle `mp_mutate`
(`MovementParameters::mutate` is called by creature.rs but its definition is
not part of the sources under src/, so it is an oracle argument here). -/
def mutate_muscles (mp_mutate : MovementParameters → MovementParameters)
    (params : List (ℕ × MovementParameters)) (m : List (ℕ × ℕ)) :
    List Muscle → ℕ → List Muscle × List (ℕ × MovementParameters) × ℕ
  | [], c => ([], [], c)
  | mu :: ms, c =>
      let r := mutate_muscles mp_mutate params m ms (c + 1)
      (⟨c, lookup_new m mu.from_id, lookup_new m mu.to_id⟩ :: r.1,
        (c, mp_mutate ((params.lookup mu.id).getD default_movement_parameters)) :: r.2.1,
        r.2.2)

/-- `CreatureBuilder::mutate`: fresh builder id, duplicated nodes and
muscles with fresh identities, mutated schedules and mutated colors (hue
delta supplied by the oracle `hue_delta`). Returns the builder and the next
counter value. -/
def CreatureBuilder.mutate (mp_mutate : MovementParameters → MovementParameters)
    (hue_delta : ℤ) (creature : Creature) (c : ℕ) : CreatureBuilder × ℕ :=
  let rn := mutate_nodes creature.nodes (c + 1)
  let rm := mutate_muscles mp_mutate creature.movement_parameters rn.2.1
    creature.muscles rn.2.2
  ({ id := c
     nodes := rn.1
     muscles := rm.1
     movement_parameters := some rm.2.1
     colors := some (CreatureColors.mutate creature.colors hue_delta) }, rm.2.2)

/-- Helper: shape of the node-duplication loop: positions and sizes are
copied in order, the new ids are the consecutive counter values, the
mapping pairs old ids with those new ids positionally, and the counter
advances by the node count. -/
lemma mutate_nodes_spec : ∀ (ns : List Node) (c : ℕ),
    (mutate_nodes ns c).1.map (fun n => (n.position, n.size)) =
      ns.map (fun n => (n.position, n.size)) ∧
    (mutate_nodes ns c).1.map Node.id = List.range' c ns.length ∧
    (mutate_nodes ns c).2.1 = (ns.map Node.id).zip (List.range' c ns.length) ∧
    (mutate_nodes ns c).2.2 = c + ns.length := by
  intro ns
  induction ns with
  | nil => intro c; simp [mutate_nodes]
  | cons n ns ih =>
      intro c
      obtain ⟨ih1, ih2, ih3, ih4⟩ := ih (c + 1)
      refine ⟨?_, ?_, ?_, ?_⟩ <;>
        simp [mutate_nodes, List.range'_succ, ih1, ih2, ih3, ih4] <;> omega

/-- Helper: shape of the muscle-duplication loop: endpoints are the mapped
old endpoints in order, the new ids are the consecutive counter values, and
the counter advances by the muscle count. -/
lemma mutate_muscles_spec (mp_mutate : MovementParameters → MovementParameters)
    (params : List (ℕ × MovementParameters)) (m : List (ℕ × ℕ)) :
    ∀ (ms : List Muscle) (c : ℕ),
      (mutate_muscles mp_mutate params m ms c).1.map
          (fun mu => (mu.from_id, mu.to_id)) =
        ms.map (fun mu => (lookup_new m mu.from_id, lookup_new m mu.to_id)) ∧
      (mutate_muscles mp_mutate params m ms c).1.map Muscle.id =
        List.range' c ms.length ∧
      (mutate_muscles mp_mutate params m ms c).2.2 = c + ms.length := by
  intro ms
  induction ms with
  | nil => intro c; simp [mutate_muscles]
  | cons mu ms ih =>
      intro c
      obtain ⟨ih1, ih2, ih3⟩ := ih (c + 1)
      refine ⟨?_, ?_, ?_⟩ <;>
        simp [mutate_muscles, List.range'_succ, ih1, ih2, ih3] <;> omega

/-- Helper: looking up the `i`-th key of a zip of duplicate-free keys with
values returns the `i`-th value. -/
lemma lookup_zip_nodup : ∀ (ks vs : List ℕ) (hn : ks.Nodup) (i : ℕ)
    (h1 : i < ks.length) (h2 : i < vs.length),
    List.lookup (ks.get ⟨i, h1⟩) (ks.zip vs) = some (vs.get ⟨i, h2⟩) := by
  intro ks
  induction ks with
  | nil => intro vs hn i h1; exact absurd h1 (by simp)
  | cons k ks ih =>
      intro vs hn i h1 h2
      match vs, h2 with
      | v :: vs, h2 =>
        match i, h1, h2 with
        | 0, _, _ => simp [List.lookup]
        | i + 1, h1, h2 =>
            have hk : k ∉ ks := (List.nodup_cons.mp hn).1
            have hne : (ks.get ⟨i, by simpa using h1⟩) ≠ k := by
              intro he
              apply hk
              rw [← he]
              exact List.get_mem _ _ _
            have hbe : ((ks.get ⟨i, by simpa using h1⟩) == k) = false := by
              simpa using hne
            simp only [List.zip_cons_cons, List.get_cons_succ, List.lookup_cons, hbe]
            exact ih vs (List.nodup_cons.mp hn).2 i _ _

/-- C5: `CreatureBuilder::mutate` preserves the node count, the muscle
count, every node's position and size, and the muscle connectivity under
the old-id-to-new-id mapping (which sends the i-th old node id to the i-th
new node id), while giving every node and muscle a fresh identity disjoint
from the parent's identities. The schedule-mutation and hue-delta oracles
are arbitrary. -/
theorem creature_builder_mutate_spec
    (mp_mutate : MovementParameters → MovementParameters) (hue_delta : ℤ)
    (creature : Creature) (c : ℕ)
    (hids : (creature.nodes.map Node.id).Nodup)
    (hold_nodes : ∀ n ∈ creature.nodes, n.id < c)
    (hold_muscles : ∀ mu ∈ creature.muscles, mu.id < c) :
    (CreatureBuilder.mutate mp_mutate hue_delta creature c).1.nodes.length =
      creature.nodes.length ∧
    (CreatureBuilder.mutate mp_mutate hue_delta creature c).1.muscles.length =
      creature.muscles.length ∧
    (CreatureBuilder.mutate mp_mutate hue_delta creature c).1.nodes.map
        (fun n => (n.position, n.size)) =
      creature.nodes.map (fun n => (n.position, n.size)) ∧
    (CreatureBuilder.mutate mp_mutate hue_delta creature c).1.muscles.map
        (fun mu => (mu.from_id, mu.to_id)) =
      creature.muscles.map (fun mu =>
        (lookup_new (mutate_nodes creature.nodes (c + 1)).2.1 mu.from_id,
          lookup_new (mutate_nodes creature.nodes (c + 1)).2.1 mu.to_id)) ∧
    (∀ i (h1 : i < creature.nodes.length)
        (h2 : i < (CreatureBuilder.mutate mp_mutate hue_delta creature c).1.nodes.length),
      lookup_new (mutate_nodes creature.nodes (c + 1)).2.1
          ((creature.nodes.get ⟨i, h1⟩).id) =
        (((CreatureBuilder.mutate mp_mutate hue_delta creature c).1.nodes.get
          ⟨i, h2⟩).id)) ∧
    (∀ n ∈ (CreatureBuilder.mutate mp_mutate hue_delta creature c).1.nodes,
      ∀ n2 ∈ creature.nodes, n.id ≠ n2.id) ∧
    (∀ mu ∈ (CreatureBuilder.mutate mp_mutate hue_delta creature c).1.muscles,
      ∀ mu2 ∈ creature.muscles, mu.id ≠ mu2.id) := by
  obtain ⟨n1, n2, n3, n4⟩ := mutate_nodes_spec creature.nodes (c + 1)
  obtain ⟨m1, m2, m3⟩ := mutate_muscles_spec mp_mutate creature.movement_parameters
    (mutate_nodes creature.nodes (c + 1)).2.1 creature.muscles
    ((mutate_nodes creature.nodes (c + 1)).2.2)
  have hbn : (CreatureBuilder.mutate mp_mutate hue_delta creature c).1.nodes =
      (mutate_nodes creature.nodes (c + 1)).1 := rfl
  have hbm : (CreatureBuilder.mutate mp_mutate hue_delta creature c).1.muscles =
      (mutate_muscles mp_mutate creature.movement_parameters
        (mutate_nodes creature.nodes (c + 1)).2.1 creature.muscles
        ((mutate_nodes creature.nodes (c + 1)).2.2)).1 := rfl
  have hlen_nodes : (CreatureBuilder.mutate mp_mutate hue_delta creature c).1.nodes.length =
      creature.nodes.length := by
    rw [hbn]
    have := congrArg List.length n2
    simpa using this
  have hlen_muscles : (CreatureBuilder.mutate mp_mutate hue_delta
      creature c).1.muscles.length = creature.muscles.length := by
    rw [hbm]
    have := congrArg List.length m2
    simpa using this
  refine ⟨hlen_nodes, hlen_muscles, by rw [hbn]; exact n1, by rw [hbm]; exact m1,
    ?_, ?_, ?_⟩
  · intro i h1 h2
    have hget := lookup_zip_nodup (creature.nodes.map Node.id)
      (List.range' (c + 1) creature.nodes.length) hids i (by simpa using h1)
      (by simpa using h1)
    have hks : (creature.nodes.map Node.id).get ⟨i, by simpa using h1⟩ =
        (creature.nodes.get ⟨i, h1⟩).id := by
      simp
    have hvs : (List.range' (c + 1) creature.nodes.length).get
        ⟨i, by simpa using h1⟩ = c + 1 + i := by
      simp
    rw [hks, hvs] at hget
    have h2m : i < ((mutate_nodes creature.nodes (c + 1)).1.map Node.id).length := by
      simpa using h2
    have hid : ((mutate_nodes creature.nodes (c + 1)).1.get
        ⟨i, by simpa using h2m⟩).id = c + 1 + i := by
      have hone := List.get_of_eq n2 ⟨i, h2m⟩
      rw [List.get_map] at hone
      simp only [List.get_eq_getElem, List.getElem_range'] at hone ⊢
      simpa using hone
    unfold lookup_new
    rw [n3, hget, Option.getD_some]
    exact hid.symm
  · intro nd hnd nd2 hnd2
    have hmem : nd.id ∈ (CreatureBuilder.mutate mp_mutate hue_delta
        creature c).1.nodes.map Node.id := List.mem_map_of_mem _ hnd
    rw [hbn, n2] at hmem
    rw [List.mem_range'] at hmem
    obtain ⟨j, hj, hje⟩ := hmem
    have := hold_nodes nd2 hnd2
    omega
  · intro mu hmu mu2 hmu2
    have hmem : mu.id ∈ (CreatureBuilder.mutate mp_mutate hue_delta
        creature c).1.muscles.map Muscle.id := List.mem_map_of_mem _ hmu
    rw [hbm, m2] at hmem
    rw [List.mem_range'] at hmem
    obtain ⟨j, hj, hje⟩ := hmem
    have := hold_muscles mu2 hmu2
    omega

/-- Concrete two-node, one-muscle parent creature used to witness C5. -/
def mutateExample : Creature :=
  { id := 0
    nodes := [⟨0, ⟨1, 2⟩, 3⟩, ⟨1, ⟨2, 1⟩, 3⟩]
    muscles := [⟨2, 0, 1⟩]
    movement_parameters := [(2, default_movement_parameters)]
    colors := CreatureColors.from_hue 0 }

/-- C5, witness: the mutation theorem applied to the concrete parent with
the identity schedule oracle, hue delta 0 and counter 10. -/
theorem creature_builder_mutate_spec_witness :
    (mutateExample.nodes.map Node.id).Nodup ∧
    (∀ n ∈ mutateExample.nodes, n.id < 10) ∧
    (∀ mu ∈ mutateExample.muscles, mu.id < 10) ∧
    (CreatureBuilder.mutate id 0 mutateExample 10).1.nodes.length =
      mutateExample.nodes.length :=
  ⟨by decide, by decide, by decide,
    (creature_builder_mutate_spec id 0 mutateExample 10 (by decide) (by decide)
      (by decide)).1⟩

/-! Bounds and anchoring of `CreatureBuilder` (creature.rs). `min_by` /
`max_by` with `util::cmp_f32` over the node position coordinates is the
plain minimum/maximum on the modelled rationals, folded over the iterator;
`unwrap` on an empty node list is modelled as `none`. -/

/-- `CreatureBuilder::get_bounds`: top-left and bottom-right corners of the
bounding box of the node positions (node size is not considered). -/
def CreatureBuilder.get_bounds (b : CreatureBuilder) : Option (Position × Position) :=
  match b.nodes with
  | [] => none
  | n :: ns =>
      some (⟨(ns.map (fun m => m.position.x)).foldl min n.position.x,
             (ns.map (fun m => m.position.y)).foldl min n.position.y⟩,
            ⟨(ns.map (fun m => m.position.x)).foldl max n.position.x,
             (ns.map (fun m => m.position.y)).foldl max n.position.y⟩)

/-- `CreatureBuilder::translate`: shift every node position by `(x, y)`. -/
def CreatureBuilder.translate (b : CreatureBuilder) (x y : ℚ) : CreatureBuilder :=
  { b with nodes := b.nodes.map (fun n =>
      { n with position := ⟨n.position.x + x, n.position.y + y⟩ }) }

/-- `CreatureBuilder::translate_bottom_center_to`: translate so that the
horizontal center of the bounds lands at `position.x` and the bottom of the
bounds (`bottom_right.y`, the largest node position y) lands at `position.y`. -/
def CreatureBuilder.translate_bottom_center_to (b : CreatureBuilder)
    (position : Position) : Option CreatureBuilder :=
  match b.get_bounds with
  | none => none
  | some (top_left, bottom_right) =>
      some (b.translate (position.x - ((top_left.x + bottom_right.x) / 2))
        (position.y - bottom_right.y))

/-- Point described by the words of the claim (not by the source): x at the
horizontal center of the bounds, y at the lowest extent accounting for node
size, the maximum over nodes of `position.y + size / 2`. -/
def claimed_bottom_center (b : CreatureBuilder) : Option Position :=
  match b.nodes with
  | [] => none
  | n :: ns =>
      some ⟨((ns.map (fun m => m.position.x)).foldl min n.position.x +
              (ns.map (fun m => m.position.x)).foldl max n.position.x) / 2,
            (ns.map (fun m => m.position.y + m.size / 2)).foldl max
              (n.position.y + n.size / 2)⟩

/-- Concrete single-node builder (node of size 10 at the origin) used
against C8. -/
def anchorExample : CreatureBuilder :=
  { id := 0
    nodes := [⟨1, ⟨0, 0⟩, 10⟩]
    muscles := []
    movement_parameters := none
    colors := none }

/-- The same builder after `translate_bottom_center_to((3, 4))`. -/
def anchorExampleMoved : CreatureBuilder :=
  { id := 0
    nodes := [⟨1, ⟨3, 4⟩, 10⟩]
    muscles := []
    movement_parameters := none
    colors := none }

/-- C8, counterexample: anchoring the single-node builder to (3, 4) puts the
node position at (3, 4), so the size-adjusted bottom center claimed by the
spec sits at (3, 9), not at the target (3, 4): `get_bounds` ignores node
size. -/
theorem translate_bottom_center_counterexample :
    anchorExample.translate_bottom_center_to ⟨3, 4⟩ = some anchorExampleMoved ∧
    claimed_bottom_center anchorExampleMoved = some ⟨3, 9⟩ ∧
    (⟨3, 9⟩ : Position) ≠ ⟨3, 4⟩ := by
  refine ⟨?_, ?_, ?_⟩
  · norm_num [CreatureBuilder.translate_bottom_center_to, CreatureBuilder.get_bounds,
      CreatureBuilder.translate, anchorExample, anchorExampleMoved]
  · unfold claimed_bottom_center anchorExampleMoved
    norm_num
  · intro h
    have h9 : (9 : ℚ) = 4 := congrArg Position.y h
    norm_num at h9

/-- Helper: folding `min` over a list shifted by a constant shifts the fold. -/
lemma foldl_min_shift (c : ℚ) : ∀ (l : List ℚ) (a : ℚ),
    (l.map (· + c)).foldl min (a + c) = l.foldl min a + c := by
  intro l
  induction l with
  | nil => intro a; simp
  | cons x xs ih =>
      intro a
      simp only [List.map_cons, List.foldl_cons]
      rw [min_add_add_right a x c]
      exact ih (min a x)

/-- Helper: folding `max` over a list shifted by a constant shifts the fold. -/
lemma foldl_max_shift (c : ℚ) : ∀ (l : List ℚ) (a : ℚ),
    (l.map (· + c)).foldl max (a + c) = l.foldl max a + c := by
  intro l
  induction l with
  | nil => intro a; simp
  | cons x xs ih =>
      intro a
      simp only [List.map_cons, List.foldl_cons]
      rw [max_add_add_right a x c]
      exact ih (max a x)

/-- C8, amended: for every non-empty builder,
`translate_bottom_center_to(target)` succeeds and translates the creature so
that the horizontal center of the resulting bounds is exactly `target.x` and
the lowest extent of the node positions (maximal `position.y`, without any
node-size adjustment) is exactly `target.y`. -/
theorem translate_bottom_center_spec (b : CreatureBuilder) (target : Position)
    (n : Node) (ns : List Node) (hb : b.nodes = n :: ns) :
    ∃ b2, b.translate_bottom_center_to target = some b2 ∧
      ∃ tl br, b2.get_bounds = some (tl, br) ∧
        (tl.x + br.x) / 2 = target.x ∧ br.y = target.y := by
  have hbounds : b.get_bounds = some
      (⟨(ns.map (fun m => m.position.x)).foldl min n.position.x,
        (ns.map (fun m => m.position.y)).foldl min n.position.y⟩,
       ⟨(ns.map (fun m => m.position.x)).foldl max n.position.x,
        (ns.map (fun m => m.position.y)).foldl max n.position.y⟩) := by
    unfold CreatureBuilder.get_bounds
    rw [hb]
  set minx := (ns.map (fun m => m.position.x)).foldl min n.position.x with hminx
  set maxx := (ns.map (fun m => m.position.x)).foldl max n.position.x with hmaxx
  set maxy := (ns.map (fun m => m.position.y)).foldl max n.position.y with hmaxy
  set dx := target.x - ((minx + maxx) / 2) with hdx
  set dy := target.y - maxy with hdy
  refine ⟨b.translate dx dy, ?_, ?_⟩
  · unfold CreatureBuilder.translate_bottom_center_to
    rw [hbounds]
  · have hnodes2 : (b.translate dx dy).nodes =
        ({ n with position := ⟨n.position.x + dx, n.position.y + dy⟩ } : Node) ::
          ns.map (fun m =>
            { m with position := ⟨m.position.x + dx, m.position.y + dy⟩ }) := by
      unfold CreatureBuilder.translate
      rw [hb, List.map_cons]
    have hxmap : (ns.map (fun m =>
        ({ m with position := ⟨m.position.x + dx, m.position.y + dy⟩ } : Node))).map
          (fun m => m.position.x) = (ns.map (fun m => m.position.x)).map (· + dx) := by
      rw [List.map_map, List.map_map]
      rfl
    have hymap : (ns.map (fun m =>
        ({ m with position := ⟨m.position.x + dx, m.position.y + dy⟩ } : Node))).map
          (fun m => m.position.y) = (ns.map (fun m => m.position.y)).map (· + dy) := by
      rw [List.map_map, List.map_map]
      rfl
    refine ⟨⟨(ns.map (fun m => m.position.x)).foldl min n.position.x + dx,
        (ns.map (fun m => m.position.y)).foldl min n.position.y + dy⟩,
      ⟨maxx + dx, maxy + dy⟩, ?_, ?_, ?_⟩
    · unfold CreatureBuilder.get_bounds
      rw [hnodes2]
      simp only [hxmap, hymap]
      rw [foldl_min_shift dx (ns.map (fun m => m.position.x)) n.position.x,
        foldl_min_shift dy (ns.map (fun m => m.position.y)) n.position.y,
        foldl_max_shift dx (ns.map (fun m => m.position.x)) n.position.x,
        foldl_max_shift dy (ns.map (fun m => m.position.y)) n.position.y]
    · rw [hdx]
      ring
    · rw [hdy]
      ring

/-- C8, witness: the anchoring theorem applied to the concrete single-node
builder and target (3, 4). -/
theorem translate_bottom_center_spec_witness :
    anchorExample.nodes = (⟨1, ⟨0, 0⟩, 10⟩ : Node) :: [] ∧
    (∃ b2, anchorExample.translate_bottom_center_to ⟨3, 4⟩ = some b2 ∧
      ∃ tl br, b2.get_bounds = some (tl, br) ∧
        (tl.x + br.x) / 2 = (⟨3, 4⟩ : Position).x ∧ br.y = (⟨3, 4⟩ : Position).y) :=
  ⟨rfl, translate_bottom_center_spec anchorExample ⟨3, 4⟩ ⟨1, ⟨0, 0⟩, 10⟩ [] rfl⟩

/-! Generation construction of the evolution controller
(`Evolver::generate_next_generation`, evolver.rs, the `on_generation > 0`
branch). A `Simulation` is visible to the selection logic only through its
score and its creature, so it is modelled by those two; the construction of
one offspring simulation
(`Simulation::new(CreatureBuilder::mutate(c).translate_bottom_center_to(bc).build())`,
which depends on the RNG) is an oracle indexed by the offspring number. -/

/-- A simulation as seen by the selection logic: its score
(`Simulation::get_score`) and its creature. -/
structure Simulation where
  score : ℚ
  creature : Creature
  deriving DecidableEq, Repr

/-- Descending stable sort by score:
`sort_by(|a, b| b.get_score().total_cmp(&a.get_score()))`; `total_cmp` is a
total order, modelled by `≤` on the rational scores. -/
def sorted_by_score_desc (generation : List Simulation) : List Simulation :=
  generation.mergeSort (fun a b => decide (b.score ≤ a.score))

/-- Offspring loop of `generate_next_generation`: walk the sorted old
generation; stop as soon as the new generation holds
`SIMULATIONS_PER_GENERATION` simulations, otherwise push
`OFFSPRING_PER_CREATURE` offspring of the current parent. -/
def generate_offspring (offspring : Creature → ℕ → Simulation) :
    List Simulation → List Simulation → List Simulation
  | [], acc => acc
  | s :: rest, acc =>
      if SIMULATIONS_PER_GENERATION ≤ (acc.length : ℤ) then acc
      else
        generate_offspring offspring rest
          (acc ++ (List.range OFFSPRING_PER_CREATURE).map (offspring s.creature))

/-- `Evolver::generate_next_generation` for a non-first generation: sort the
finished generation by descending score, then collect offspring of the top
scorers until the population size is reached. -/
def generate_next_generation (offspring : Creature → ℕ → Simulation)
    (generation : List Simulation) : List Simulation :=
  generate_offspring offspring (sorted_by_score_desc generation) []

/-- Offspring of a list of parents, `OFFSPRING_PER_CREATURE` each, in order. -/
def offspring_of_parents (offspring : Creature → ℕ → Simulation) :
    List Simulation → List Simulation
  | [] => []
  | s :: rest =>
      (List.range OFFSPRING_PER_CREATURE).map (offspring s.creature) ++
        offspring_of_parents offspring rest

/-- Helper: length of the offspring of a parent list. -/
lemma offspring_of_parents_length (offspring : Creature → ℕ → Simulation) :
    ∀ parents : List Simulation,
      (offspring_of_parents offspring parents).length =
        OFFSPRING_PER_CREATURE * parents.length := by
  intro parents
  induction parents with
  | nil => simp [offspring_of_parents]
  | cons s rest ih =>
      simp only [offspring_of_parents, List.length_append, List.length_map,
        List.length_range, ih, List.length_cons]
      ring

/-- Helper: the offspring loop with an even-sized accumulator collects
offspring of exactly the first `(100 - acc.length) / 2` parents. -/
lemma generate_offspring_spec (offspring : Creature → ℕ → Simulation) :
    ∀ (l : List Simulation) (acc : List Simulation), 2 ∣ acc.length →
      generate_offspring offspring l acc =
        acc ++ offspring_of_parents offspring (l.take ((100 - acc.length) / 2)) := by
  intro l
  induction l with
  | nil =>
      intro acc _
      simp [generate_offspring, offspring_of_parents]
  | cons s rest ih =>
      intro acc heven
      by_cases hfull : SIMULATIONS_PER_GENERATION ≤ (acc.length : ℤ)
      · have h100 : 100 ≤ acc.length := by
          simpa [SIMULATIONS_PER_GENERATION] using hfull
        have hz : (100 - acc.length) / 2 = 0 := by omega
        simp [generate_offspring, if_pos hfull, hz, offspring_of_parents]
      · have hlt : acc.length < 100 := by
          have := hfull
          simp only [SIMULATIONS_PER_GENERATION, not_le] at this
          exact_mod_cast this
        have hacc2 : (acc ++ (List.range OFFSPRING_PER_CREATURE).map
            (offspring s.creature)).length = acc.length + 2 := by
          simp [OFFSPRING_PER_CREATURE]
        have heven2 : 2 ∣ (acc ++ (List.range OFFSPRING_PER_CREATURE).map
            (offspring s.creature)).length := by
          rw [hacc2]
          omega
        have hih := ih (acc ++ (List.range OFFSPRING_PER_CREATURE).map
          (offspring s.creature)) heven2
        rw [generate_offspring, if_neg hfull, hih, hacc2]
        have hsteps : (100 - acc.length) / 2 = (100 - (acc.length + 2)) / 2 + 1 := by
          omega
        rw [hsteps, List.take_succ_cons, offspring_of_parents, List.append_assoc]

/-- C6: when the old generation has exactly `SIMULATIONS_PER_GENERATION`
simulations, the next generation is exactly the offspring, in order and
`OFFSPRING_PER_CREATURE` each, of the top
`SIMULATIONS_PER_GENERATION / OFFSPRING_PER_CREATURE = 50` scorers of the
descending stable sort of the old generation (so no other simulation
contributes), and it again holds 100 simulations; the sort is by descending
score (a total order on the scores) and is a permutation of the old
generation. -/
theorem generate_next_generation_spec (offspring : Creature → ℕ → Simulation)
    (generation : List Simulation)
    (hlen : (generation.length : ℤ) = SIMULATIONS_PER_GENERATION) :
    generate_next_generation offspring generation =
      offspring_of_parents offspring
        ((sorted_by_score_desc generation).take
          (SIMULATIONS_PER_GENERATION.toNat / OFFSPRING_PER_CREATURE)) ∧
    (generate_next_generation offspring generation).length = 100 ∧
    List.Pairwise (fun a b => b.score ≤ a.score) (sorted_by_score_desc generation) ∧
    (sorted_by_score_desc generation).Perm generation := by
  have hlen100 : generation.length = 100 := by
    have hz : (generation.length : ℤ) = 100 := by
      simpa [SIMULATIONS_PER_GENERATION] using hlen
    exact_mod_cast hz
  have hsortlen : (sorted_by_score_desc generation).length = 100 := by
    simp [sorted_by_score_desc, hlen100]
  have hmain : generate_next_generation offspring generation =
      offspring_of_parents offspring ((sorted_by_score_desc generation).take 50) := by
    have := generate_offspring_spec offspring (sorted_by_score_desc generation) []
      (by simp)
    simpa [generate_next_generation] using this
  have htake : ((sorted_by_score_desc generation).take 50).length = 50 := by
    rw [List.length_take, hsortlen]
    omega
  refine ⟨?_, ?_, ?_, ?_⟩
  · rw [hmain]
    rfl
  · rw [hmain, offspring_of_parents_length, htake]
    rfl
  · have hpw := @List.sorted_mergeSort Simulation
      (fun a b : Simulation => decide (b.score ≤ a.score))
      (fun a b c hab hbc => by
        simp only [decide_eq_true_eq] at hab hbc ⊢
        exact le_trans hbc hab)
      (fun a b => by
        simp only [Bool.or_eq_true, decide_eq_true_eq]
        exact le_total b.score a.score)
      generation
    exact hpw.imp (by simp)
  · exact List.mergeSort_perm generation _

/-- Concrete zero-score simulation of an empty creature used to witness C6. -/
def emptySim : Simulation :=
  ⟨0, ⟨0, [], [], [], CreatureColors.from_hue 0⟩⟩

/-- C6, witness: the selection theorem applied to a generation of 100
concrete simulations and a constant offspring oracle. -/
theorem generate_next_generation_spec_witness :
    (((List.replicate 100 emptySim).length : ℤ) = SIMULATIONS_PER_GENERATION) ∧
    (generate_next_generation (fun _ _ => emptySim)
      (List.replicate 100 emptySim)).length = 100 :=
  ⟨by simp [SIMULATIONS_PER_GENERATION],
    (generate_next_generation_spec (fun _ _ => emptySim)
      (List.replicate 100 emptySim) (by simp [SIMULATIONS_PER_GENERATION])).2.1⟩

end ProjEvo
